import Mathlib

/-!
Verification of the scarlettctl control model.

Shallow embedding of the scarlettctl Go library (card/control/routing/mixer/
preamp/event code) into Lean.  Control names are modelled as lists of
characters; the ALSA registry below the library is modelled as an abstract
snapshot function from control identity to an optional read value (a read
failure is modelled as a missing value).  Pure classification and validation
code is translated function by function from the source.
-/

namespace Scarlettctl

/-- Control names (Go strings) are modelled as lists of characters. -/
abbrev Str := List Char

/-- Control element types, mirroring the ALSA control types used by the
library (snd_ctl_elem_type): none, boolean, integer, enumerated, bytes,
iec958 and integer64. -/
inductive ControlType where
  | noneT
  | boolean
  | integer
  | enumerated
  | bytes
  | iec958
  | integer64
deriving DecidableEq, Repr

/-- A control descriptor, mirroring the Go Control struct: numeric id, name,
type, value count and index, interface/device/subdevice triple, min/max for
numeric types and the ordered item list for enumerated controls.  The card
handle back-pointer is environment plumbing and is not part of the model. -/
structure Control where
  numID : Nat
  name : Str
  type : ControlType
  count : Nat
  index : Nat
  device : Nat
  subdevice : Nat
  min : Int
  max : Int
  items : List Str
deriving DecidableEq, Repr

/-- Outcome of a value-setting operation: the value was handed to the
registry write, or validation rejected it with a range error, or the write
layer rejected the control type, or string parsing failed, or the control
type is unsupported by the string setter. -/
inductive SetOutcome where
  | written (v : Int)
  | rangeError
  | unsupportedWrite
  | invalidFormat
  | unsupportedType
deriving DecidableEq, Repr

/-- The write layer (cgo writeControl): boolean, integer, enumerated and
integer64 values are written back; other types are rejected as unsupported.
A successful write records the value handed to the registry. -/
def writeControlOutcome (ctl : Control) (v : Int) : SetOutcome :=
  match ctl.type with
  | .boolean => .written v
  | .integer => .written v
  | .enumerated => .written v
  | .integer64 => .written v
  | _ => .unsupportedWrite

/-- Control.SetValue: integer and integer64 values are range-checked against
min/max, enumerated values against the item count; everything else passes
straight to the write layer. -/
def setValue (ctl : Control) (v : Int) : SetOutcome :=
  if (ctl.type = .integer ∨ ctl.type = .integer64) ∧ (v < ctl.min ∨ v > ctl.max) then
    .rangeError
  else if ctl.type = .enumerated ∧ (v < 0 ∨ v ≥ ctl.items.length) then
    .rangeError
  else
    writeControlOutcome ctl v

/-- Claim C3: for every enumerated control, setValue performs the registry
write exactly when 0 ≤ v < item count, and for every integer or integer64
control exactly when min ≤ v ≤ max; any value outside those bounds yields a
range error and no write. -/
theorem setValue_bounds (ctl : Control) (v : Int) :
    (ctl.type = .enumerated →
      ((setValue ctl v = .written v ↔ 0 ≤ v ∧ v < ctl.items.length) ∧
       (¬(0 ≤ v ∧ v < ctl.items.length) → setValue ctl v = .rangeError))) ∧
    ((ctl.type = .integer ∨ ctl.type = .integer64) →
      ((setValue ctl v = .written v ↔ ctl.min ≤ v ∧ v ≤ ctl.max) ∧
       (¬(ctl.min ≤ v ∧ v ≤ ctl.max) → setValue ctl v = .rangeError))) := by
  constructor
  · intro htype
    unfold setValue writeControlOutcome
    rw [htype]
    constructor
    · constructor
      · intro h
        by_cases hb : (0:Int) ≤ v ∧ v < ctl.items.length
        · exact hb
        · exfalso
          simp only [htype] at h
          rcases lt_or_le v 0 with hv | hv
          · simp [hv] at h
          · have : (v:Int) ≥ ctl.items.length := by
              by_contra hc
              push_neg at hc
              exact hb ⟨hv, hc⟩
            simp [this, not_lt.mpr hv] at h
      · intro ⟨h0, hlen⟩
        simp [htype, not_lt.mpr h0, not_le.mpr hlen]
    · intro hb
      rcases not_and_or.mp hb with h0 | hlen
      · push_neg at h0
        simp [htype, h0]
      · push_neg at hlen
        simp [htype, hlen, not_lt.mpr (le_trans (Int.ofNat_nonneg _) hlen)]
  · intro htype
    have hne : ctl.type ≠ .enumerated := by
      rcases htype with h | h <;> rw [h] <;> intro hc <;> cases hc
    constructor
    · constructor
      · intro h
        by_cases hb : ctl.min ≤ v ∧ v ≤ ctl.max
        · exact hb
        · exfalso
          rcases not_and_or.mp hb with hm | hm
          · push_neg at hm
            simp [setValue, htype, hm] at h
          · push_neg at hm
            simp [setValue, htype, hm] at h
      · intro ⟨hmin, hmax⟩
        have : ¬((ctl.type = .integer ∨ ctl.type = .integer64) ∧ (v < ctl.min ∨ v > ctl.max)) := by
          intro ⟨_, hr⟩
          rcases hr with hr | hr
          · exact absurd hmin (not_le.mpr hr)
          · exact absurd hmax (not_le.mpr hr)
        rcases htype with h | h <;>
          simp [setValue, writeControlOutcome, this, h, hne] <;>
          exact ⟨hmin, hmax⟩
    · intro hb
      rcases not_and_or.mp hb with hm | hm
      · push_neg at hm
        simp [setValue, htype, hm]
      · push_neg at hm
        simp [setValue, htype, hm]

/-- Witness for C3: an enumerated control with five items accepts value 4 and
rejects value 5 with a range error. -/
theorem setValue_bounds_witness :
    setValue ⟨1, [], .enumerated, 1, 0, 0, 0, 0, 0,
      [['a'], ['b'], ['c'], ['d'], ['e']]⟩ 4 = .written 4 ∧
    setValue ⟨1, [], .enumerated, 1, 0, 0, 0, 0, 0,
      [['a'], ['b'], ['c'], ['d'], ['e']]⟩ 5 = .rangeError := by
  constructor
  · exact ((setValue_bounds _ 4).1 rfl).1.mpr (by decide)
  · exact ((setValue_bounds _ 5).1 rfl).2 (by decide)

/-- Claim C10: for every boolean control, setValue performs no range
validation at all: every value, not only 0 and 1, is handed to the registry
write, and no range error is possible. -/
theorem setValue_boolean_unchecked (ctl : Control) (v : Int)
    (h : ctl.type = .boolean) : setValue ctl v = .written v := by
  have h1 : ¬(ctl.type = .integer ∨ ctl.type = .integer64) := by
    rw [h]; rintro (hc | hc) <;> cases hc
  have h2 : ctl.type ≠ .enumerated := by rw [h]; intro hc; cases hc
  simp [setValue, writeControlOutcome, h1, h2, h]

/-- Witness for C10: a boolean control accepts the out-of-0-1 value 7 and
hands it to the write layer. -/
theorem setValue_boolean_unchecked_witness :
    setValue ⟨2, [], .boolean, 1, 0, 0, 0, 0, 1, []⟩ 7 = .written 7 :=
  setValue_boolean_unchecked _ 7 rfl

/-- Boolean prefix test characterised as an append decomposition (the shape
of Go strings.HasPrefix). -/
theorem hasPref (p s : Str) : p.isPrefixOf s = true ↔ ∃ t, s = p ++ t := by
  induction p generalizing s with
  | nil => simp [List.isPrefixOf]
  | cons a as ih =>
      cases s with
      | nil => simp [List.isPrefixOf]
      | cons b bs =>
          simp only [List.isPrefixOf, Bool.and_eq_true, beq_iff_eq, ih,
            List.cons_append, List.cons.injEq]
          constructor
          · rintro ⟨rfl, t, rfl⟩
            exact ⟨t, rfl, rfl⟩
          · rintro ⟨t, rfl, rfl⟩
            exact ⟨rfl, t, rfl⟩

/-- Go strings.Contains: the needle occurs somewhere in the haystack.
Modelled by scanning successive tails. -/
def containsSub : Str → Str → Bool
  | sub, [] => sub.isEmpty
  | sub, c :: rest => sub.isPrefixOf (c :: rest) || containsSub sub rest

/-- containsSub decides the occurs-inside relation on lists. -/
theorem containsSub_iff (sub s : Str) : containsSub sub s = true ↔ sub <:+: s := by
  induction s with
  | nil =>
      simp only [containsSub, List.isEmpty_iff]
      constructor
      · rintro rfl
        exact ⟨[], [], rfl⟩
      · rintro ⟨t, u, h⟩
        rcases List.append_eq_nil.mp h with ⟨h1, h2⟩
        rcases List.append_eq_nil.mp h1 with ⟨-, h3⟩
        exact h3
  | cons c rest ih =>
      simp only [containsSub, Bool.or_eq_true, hasPref, ih]
      constructor
      · rintro (⟨t, ht⟩ | ⟨t, u, ht⟩)
        · exact ⟨[], t, by simpa using ht.symm⟩
        · exact ⟨c :: t, u, by simpa using ht⟩
      · rintro ⟨t, u, ht⟩
        cases t with
        | nil =>
            left
            exact ⟨u, by simpa using ht.symm⟩
        | cons d t' =>
            right
            refine ⟨t', u, ?_⟩
            have h0 : d :: (t' ++ (sub ++ u)) = c :: rest := by
              simpa [List.append_assoc] using ht
            injection h0 with _ h1
            simpa [List.append_assoc] using h1

/-- isRoutingSink: a control name is a routing sink when it contains
"Capture Enum", "Playback Enum" or "Capture Route" and contains neither
"Volume" nor "Switch". -/
def isRoutingSink (name : Str) : Bool :=
  (containsSub "Capture Enum".toList name ||
   containsSub "Playback Enum".toList name ||
   containsSub "Capture Route".toList name) &&
  !containsSub "Volume".toList name &&
  !containsSub "Switch".toList name

/-- Claim C6: for every control name, the sink-detection predicate holds iff
the name contains "Capture Enum", "Playback Enum" or "Capture Route" and
does not contain "Volume" and does not contain "Switch". -/
theorem isRoutingSink_iff (name : Str) :
    isRoutingSink name = true ↔
      (("Capture Enum".toList <:+: name) ∨ ("Playback Enum".toList <:+: name) ∨
        ("Capture Route".toList <:+: name)) ∧
      ¬("Volume".toList <:+: name) ∧ ¬("Switch".toList <:+: name) := by
  simp only [isRoutingSink, Bool.and_eq_true, Bool.or_eq_true, Bool.not_eq_true',
    ← Bool.not_eq_true, containsSub_iff, and_assoc, or_assoc]

/-- The value of a digit character. -/
def digitVal (c : Char) : Nat := c.toNat - 48

/-- Decimal value of a digit run (the effect of Sscanf %d / strconv.Atoi on a
run of decimal digits). -/
def digitsToNat (ds : Str) : Nat := ds.foldl (fun a c => 10 * a + digitVal c) 0

/-- The first maximal run of decimal digits in a string, if any (the first
match of a digit-run search). -/
def firstDigitRun : Str → Option Str
  | [] => Option.none
  | c :: rest =>
      if c.isDigit then some (c :: rest.takeWhile Char.isDigit)
      else firstDigitRun rest

/-- extractPortNumber: the decimal value of the first digit run in the name,
or 0 when the name has no digits. -/
def extractPortNumber (s : Str) : Nat :=
  match firstDigitRun s with
  | some ds => digitsToNat ds
  | Option.none => 0

/-- Routing port categories. -/
inductive PortCategory where
  | off
  | hw
  | mix
  | pcm
  | dsp
deriving DecidableEq, Repr

/-- parseRoutingSourceName: classify a routing source item name.  A result
of Option.none models the Go runtime panic taken on the slice name[4:5] when
a name has the "Mix " prefix but no fifth byte.  The mixer port number is the
byte value of the fifth character minus 'A', computed modulo 256 as Go byte
arithmetic does (names are ASCII, one byte per character). -/
def parseRoutingSourceName (name : Str) : Option (PortCategory × Int) :=
  if name = "Off".toList then some (.off, 0)
  else if "Mix ".toList.isPrefixOf name then
    match name.drop 4 with
    | [] => Option.none
    | c :: _ => some (.mix, Int.ofNat ((c.toNat + 256 - 65) % 256))
  else if "PCM ".toList.isPrefixOf name then
    some (.pcm, (extractPortNumber name : Int) - 1)
  else if "DSP ".toList.isPrefixOf name then
    some (.dsp, (extractPortNumber name : Int) - 1)
  else if containsSub "Analogue".toList name || containsSub "S/PDIF".toList name ||
      containsSub "ADAT".toList name then
    some (.hw, (extractPortNumber name : Int) - 1)
  else
    some (.off, 0)

/-- Claim C9: routing source classification is total except on the single
four-character name "Mix ": exactly there the slice name[4:5] is out of
range and classification panics instead of returning the defensive (off, 0)
default; every other name (in particular every name with the "Mix " prefix
and length at least five) classifies without panicking. -/
theorem parseRoutingSourceName_total_iff (name : Str) :
    parseRoutingSourceName name = Option.none ↔ name = "Mix ".toList := by
  unfold parseRoutingSourceName
  split_ifs with h1 h2 h3 h4 h5
  · rw [h1]
    simp only [reduceCtorEq, false_iff]
    decide
  · obtain ⟨t, rfl⟩ := (hasPref _ _).mp h2
    rw [List.drop_left' (show ("Mix ".toList).length = 4 by decide)]
    cases t with
    | nil => simp
    | cons c u =>
        simp only [reduceCtorEq, false_iff]
        intro hc
        have := congrArg List.length hc
        simp at this
  · simp only [reduceCtorEq, false_iff]
    rintro rfl
    exact h2 (by decide)
  · simp only [reduceCtorEq, false_iff]
    rintro rfl
    exact h2 (by decide)
  · simp only [reduceCtorEq, false_iff]
    rintro rfl
    exact h2 (by decide)
  · simp only [reduceCtorEq, false_iff]
    rintro rfl
    exact h2 (by decide)

/-- Does the string start with a decimal digit? -/
def headIsDigit : Str → Bool
  | [] => false
  | c :: _ => c.isDigit

/-- The category pattern for PCM sinks: anchored search for "PCM " followed
by at least one digit. -/
def matchPCMCat (s : Str) : Bool :=
  "PCM ".toList.isPrefixOf s && headIsDigit (s.drop 4)

/-- The category pattern for mixer sinks: anchored search for "Mixer Input",
"Mixer" or "Matrix", then a space and at least one digit. -/
def matchMixCat (s : Str) : Bool :=
  ("Mixer Input ".toList.isPrefixOf s && headIsDigit (s.drop 12)) ||
  ("Mixer ".toList.isPrefixOf s && headIsDigit (s.drop 6)) ||
  ("Matrix ".toList.isPrefixOf s && headIsDigit (s.drop 7))

/-- The category pattern for DSP sinks: anchored search for "DSP Input "
followed by at least one digit. -/
def matchDSPCat (s : Str) : Bool :=
  "DSP Input ".toList.isPrefixOf s && headIsDigit (s.drop 10)

/-- The category pattern for hardware sinks: anchored search for "Analogue",
"S/PDIF" or "ADAT", an optional " Output" or " Input", then a space and at
least one digit.  The nine alternatives are enumerated explicitly. -/
def matchHWCat (s : Str) : Bool :=
  ("Analogue ".toList.isPrefixOf s && headIsDigit (s.drop 9)) ||
  ("Analogue Output ".toList.isPrefixOf s && headIsDigit (s.drop 16)) ||
  ("Analogue Input ".toList.isPrefixOf s && headIsDigit (s.drop 15)) ||
  ("S/PDIF ".toList.isPrefixOf s && headIsDigit (s.drop 7)) ||
  ("S/PDIF Output ".toList.isPrefixOf s && headIsDigit (s.drop 14)) ||
  ("S/PDIF Input ".toList.isPrefixOf s && headIsDigit (s.drop 13)) ||
  ("ADAT ".toList.isPrefixOf s && headIsDigit (s.drop 5)) ||
  ("ADAT Output ".toList.isPrefixOf s && headIsDigit (s.drop 12)) ||
  ("ADAT Input ".toList.isPrefixOf s && headIsDigit (s.drop 11))

/-- One row of the category pattern table: a category and its matcher. -/
abbrev SinkMatcher := PortCategory × (Str → Bool)

/-- The category pattern table (portCategoryRegexes).  The Go original is a
map whose iteration order is unspecified; this list fixes one order and the
determinism theorem quantifies over all permutations of it. -/
def sinkCategoryRows : List SinkMatcher :=
  [(.pcm, matchPCMCat), (.mix, matchMixCat), (.dsp, matchDSPCat), (.hw, matchHWCat)]

/-- parseRoutingSinkName relative to a given iteration order of the category
pattern table: the first matching row gives the category, the port number is
the first digit run of the name; no match falls back to (off, 0). -/
def parseRoutingSinkNameWith (rows : List SinkMatcher) (name : Str) : PortCategory × Int :=
  match rows.find? (fun r => r.2 name) with
  | some r => (r.1, (extractPortNumber name : Int))
  | Option.none => (.off, 0)

/-- If a pattern with known head character is a prefix of s, then s starts
with that character. -/
theorem head_of_pref {p s : Str} {c : Char} (h : p.isPrefixOf s = true)
    (hp : p.head? = some c) : s.head? = some c := by
  obtain ⟨t, rfl⟩ := (hasPref _ _).mp h
  cases p with
  | nil => cases hp
  | cons a q => simpa using hp

/-- A PCM-category match forces the name to start with 'P'. -/
theorem matchPCMCat_head {s : Str} (h : matchPCMCat s = true) : s.head? = some 'P' := by
  unfold matchPCMCat at h
  exact head_of_pref ((Bool.and_eq_true ..).mp h).1 rfl

/-- A mixer-category match forces the name to start with 'M'. -/
theorem matchMixCat_head {s : Str} (h : matchMixCat s = true) : s.head? = some 'M' := by
  unfold matchMixCat at h
  simp only [Bool.or_eq_true, Bool.and_eq_true, or_assoc] at h
  rcases h with ⟨h, -⟩ | ⟨h, -⟩ | ⟨h, -⟩ <;> exact head_of_pref h rfl

/-- A DSP-category match forces the name to start with 'D'. -/
theorem matchDSPCat_head {s : Str} (h : matchDSPCat s = true) : s.head? = some 'D' := by
  unfold matchDSPCat at h
  exact head_of_pref ((Bool.and_eq_true ..).mp h).1 rfl

/-- A hardware-category match forces the name to start with 'A' or 'S'. -/
theorem matchHWCat_head {s : Str} (h : matchHWCat s = true) :
    s.head? = some 'A' ∨ s.head? = some 'S' := by
  unfold matchHWCat at h
  simp only [Bool.or_eq_true, Bool.and_eq_true, or_assoc] at h
  rcases h with ⟨h, -⟩ | ⟨h, -⟩ | ⟨h, -⟩ | ⟨h, -⟩ | ⟨h, -⟩ | ⟨h, -⟩ | ⟨h, -⟩ | ⟨h, -⟩ | ⟨h, -⟩
  · exact Or.inl (head_of_pref h rfl)
  · exact Or.inl (head_of_pref h rfl)
  · exact Or.inl (head_of_pref h rfl)
  · exact Or.inr (head_of_pref h rfl)
  · exact Or.inr (head_of_pref h rfl)
  · exact Or.inr (head_of_pref h rfl)
  · exact Or.inl (head_of_pref h rfl)
  · exact Or.inl (head_of_pref h rfl)
  · exact Or.inl (head_of_pref h rfl)

/-- At most one of the four category patterns matches any given name: the
four pattern families force four disjoint sets of first characters. -/
theorem sinkMatchersExclusive (name : Str) :
    List.countP (fun r => r.2 name) sinkCategoryRows ≤ 1 := by
  have hPM : matchPCMCat name = true → matchMixCat name = true → False := fun h1 h2 => by
    have := (matchPCMCat_head h1).symm.trans (matchMixCat_head h2)
    simp at this
  have hPD : matchPCMCat name = true → matchDSPCat name = true → False := fun h1 h2 => by
    have := (matchPCMCat_head h1).symm.trans (matchDSPCat_head h2)
    simp at this
  have hPH : matchPCMCat name = true → matchHWCat name = true → False := fun h1 h2 => by
    rcases matchHWCat_head h2 with h | h <;>
      · have := (matchPCMCat_head h1).symm.trans h
        simp at this
  have hMD : matchMixCat name = true → matchDSPCat name = true → False := fun h1 h2 => by
    have := (matchMixCat_head h1).symm.trans (matchDSPCat_head h2)
    simp at this
  have hMH : matchMixCat name = true → matchHWCat name = true → False := fun h1 h2 => by
    rcases matchHWCat_head h2 with h | h <;>
      · have := (matchMixCat_head h1).symm.trans h
        simp at this
  have hDH : matchDSPCat name = true → matchHWCat name = true → False := fun h1 h2 => by
    rcases matchHWCat_head h2 with h | h <;>
      · have := (matchDSPCat_head h1).symm.trans h
        simp at this
  by_cases hp : matchPCMCat name = true <;>
  by_cases hm : matchMixCat name = true <;>
  by_cases hd : matchDSPCat name = true <;>
  by_cases hw : matchHWCat name = true <;>
  first
    | exact absurd hm (fun h => hPM hp h)
    | exact absurd hd (fun h => hPD hp h)
    | exact absurd hw (fun h => hPH hp h)
    | exact absurd hd (fun h => hMD hm h)
    | exact absurd hw (fun h => hMH hm h)
    | exact absurd hw (fun h => hDH hd h)
    | simp [sinkCategoryRows, List.countP_cons, List.countP_nil, hp, hm, hd, hw]

/-- find? is stable under permutation of the list when at most one element
satisfies the predicate. -/
theorem find?_eq_of_perm {α : Type} {l l' : List α} (p : α → Bool)
    (hperm : l.Perm l') : l.countP p ≤ 1 → l.find? p = l'.find? p := by
  induction hperm with
  | nil => intro _; rfl
  | cons x h ih =>
      intro hu
      by_cases hx : p x = true
      · simp [List.find?_cons, hx]
      · simp only [List.find?_cons, hx]
        exact ih (by simpa [List.countP_cons, hx] using hu)
  | swap x y l =>
      intro hu
      by_cases hx : p x = true <;> by_cases hy : p y = true
      · simp [List.countP_cons, hx, hy] at hu
      · simp [List.find?_cons, hx, hy]
      · simp [List.find?_cons, hx, hy]
      · simp [List.find?_cons, hx, hy]
  | trans h1 h2 ih1 ih2 =>
      intro hu
      exact (ih1 hu).trans (ih2 (h1.countP_eq p ▸ hu))

/-- Claim C7: routing sink classification is deterministic.  The four
category patterns are mutually exclusive (no name matches more than one
table row), and consequently evaluating the classifier under any iteration
order of the category table — any permutation of its rows — yields the same
(category, port) pair. -/
theorem parseRoutingSinkName_deterministic :
    (∀ name : Str, List.countP (fun r => r.2 name) sinkCategoryRows ≤ 1) ∧
    (∀ (rows : List SinkMatcher) (name : Str), rows.Perm sinkCategoryRows →
      parseRoutingSinkNameWith rows name = parseRoutingSinkNameWith sinkCategoryRows name) := by
  refine ⟨sinkMatchersExclusive, fun rows name hperm => ?_⟩
  unfold parseRoutingSinkNameWith
  rw [find?_eq_of_perm _ hperm ((hperm.countP_eq _).le.trans (sinkMatchersExclusive name))]

/-- Witness for C7: evaluating the classifier with the table reversed agrees
with the canonical order on "PCM 01 Capture Enum", both giving (pcm, 1). -/
theorem parseRoutingSinkName_deterministic_witness :
    parseRoutingSinkNameWith sinkCategoryRows.reverse "PCM 01 Capture Enum".toList =
      parseRoutingSinkNameWith sinkCategoryRows "PCM 01 Capture Enum".toList ∧
    parseRoutingSinkNameWith sinkCategoryRows.reverse "PCM 01 Capture Enum".toList =
      (.pcm, 1) :=
  ⟨parseRoutingSinkName_deterministic.2 _ _ (List.reverse_perm _), by decide⟩

/-- takeWhile over a run that entirely satisfies the predicate, followed by a
stopping character, returns exactly the run. -/
theorem takeWhile_append_stop {p : Char → Bool} (ds t : Str) (c : Char)
    (hds : ∀ d ∈ ds, p d = true) (hc : p c = false) :
    (ds ++ c :: t).takeWhile p = ds := by
  induction ds with
  | nil => simp [List.takeWhile_cons, hc]
  | cons d ds ih =>
      simp only [List.cons_append, List.takeWhile_cons, hds d (by simp)]
      rw [ih fun x hx => hds x (by simp [hx])]
      simp

/-- The gen 2/3/4 mixer volume pattern, anchored at both ends:
"Mix " then an uppercase letter, then " Input ", a nonempty digit run and
the exact suffix " Playback Volume".  Returns the letter and the parsed
input number. -/
def matchGen234 (s : Str) : Option (Char × Nat) :=
  match s with
  | 'M' :: 'i' :: 'x' :: ' ' :: c :: rest =>
      if ('A' ≤ c ∧ c ≤ 'Z') ∧ " Input ".toList.isPrefixOf rest ∧
          (rest.drop 7).takeWhile Char.isDigit ≠ [] ∧
          (rest.drop 7).drop ((rest.drop 7).takeWhile Char.isDigit).length =
            " Playback Volume".toList then
        some (c, digitsToNat ((rest.drop 7).takeWhile Char.isDigit))
      else Option.none
  | _ => Option.none

/-- The gen 1 mixer volume pattern, anchored at both ends: "Matrix " then a
nonempty digit run, then " Mix ", an uppercase letter and the exact suffix
" Playback Volume".  Returns the parsed input number and the letter. -/
def matchGen1 (s : Str) : Option (Nat × Char) :=
  match s with
  | 'M' :: 'a' :: 't' :: 'r' :: 'i' :: 'x' :: ' ' :: rest =>
      if rest.takeWhile Char.isDigit ≠ [] then
        match rest.drop (rest.takeWhile Char.isDigit).length with
        | ' ' :: 'M' :: 'i' :: 'x' :: ' ' :: c :: r2 =>
            if ('A' ≤ c ∧ c ≤ 'Z') ∧ r2 = " Playback Volume".toList then
              some (digitsToNat (rest.takeWhile Char.isDigit), c)
            else Option.none
        | _ => Option.none
      else Option.none
  | _ => Option.none

/-- A mixer input entry: mix name ("Mix " plus the letter), 1-based input
number and the backing control. -/
structure MixerInput where
  mixName : Str
  inputNum : Nat
  control : Control
deriving DecidableEq, Repr

/-- Name classification used by GetMixerInputs: the gen 2/3/4 pattern is
tried first, then the gen 1 pattern; both normalise to the key
(mix name, input number). -/
def classifyMixerName (s : Str) : Option (Str × Nat) :=
  match matchGen234 s with
  | some cn => some ("Mix ".toList ++ [cn.1], cn.2)
  | Option.none =>
      match matchGen1 s with
      | some nc => some ("Mix ".toList ++ [nc.2], nc.1)
      | Option.none => Option.none

/-- GetMixerInputs: every integer control whose name matches either mixer
naming convention contributes one MixerInput, in control order. -/
def getMixerInputs (ctls : List Control) : List MixerInput :=
  ctls.filterMap fun ctl =>
    if ctl.type = .integer then
      (classifyMixerName ctl.name).map fun mn => ⟨mn.1, mn.2, ctl⟩
    else Option.none

/-- Evaluation of the gen 2/3/4 matcher on a well-formed gen 2/3/4 name. -/
theorem matchGen234_eval (c : Char) (ds : Str)
    (hA : 'A' ≤ c) (hZ : c ≤ 'Z') (hne : ds ≠ []) (hdig : ∀ d ∈ ds, d.isDigit = true) :
    matchGen234
        ('M' :: 'i' :: 'x' :: ' ' :: c ::
          (" Input ".toList ++ (ds ++ " Playback Volume".toList))) =
      some (c, digitsToNat ds) := by
  have hTW : ((" Input ".toList ++ (ds ++ " Playback Volume".toList)).drop 7).takeWhile
      Char.isDigit = ds := by
    rw [List.drop_left' (by decide)]
    have : ds ++ " Playback Volume".toList = ds ++ ' ' :: "Playback Volume".toList := rfl
    rw [this, takeWhile_append_stop ds _ ' ' hdig (by decide)]
  show (if _ then _ else _) = _
  rw [if_pos]
  · rw [hTW]
  · refine ⟨⟨hA, hZ⟩, (hasPref _ _).mpr ⟨_, rfl⟩, ?_, ?_⟩
    · rw [hTW]; exact hne
    · rw [hTW, List.drop_left' (show (" Input ".toList).length = 7 by decide),
        List.drop_left]

/-- Evaluation of the gen 1 matcher on a well-formed gen 1 name. -/
theorem matchGen1_eval (c : Char) (ds : Str)
    (hA : 'A' ≤ c) (hZ : c ≤ 'Z') (hne : ds ≠ []) (hdig : ∀ d ∈ ds, d.isDigit = true) :
    matchGen1
        ('M' :: 'a' :: 't' :: 'r' :: 'i' :: 'x' :: ' ' ::
          (ds ++ (' ' :: 'M' :: 'i' :: 'x' :: ' ' :: c :: " Playback Volume".toList))) =
      some (digitsToNat ds, c) := by
  have hTW : (ds ++ (' ' :: 'M' :: 'i' :: 'x' :: ' ' :: c ::
      " Playback Volume".toList)).takeWhile Char.isDigit = ds :=
    takeWhile_append_stop ds _ ' ' hdig (by decide)
  show (if _ then _ else _) = _
  rw [if_pos]
  · simp only [hTW, List.drop_left]
    rw [if_pos ⟨⟨hA, hZ⟩, by simp⟩]
  · rw [hTW]; exact hne

/-- Claim C5: the two mixer naming conventions classify to identical keys.
For every uppercase mix letter and every nonempty digit run, an integer
control named "Mix L Input NN Playback Volume" (gen 2/3/4) and one named
"Matrix NN Mix L Playback Volume" (gen 1) each yield exactly one MixerInput,
and the two entries carry the identical key: mix name "Mix L" and the input
number parsed from the digit run. -/
theorem mixer_conventions_agree (c : Char) (ds : Str) (ctl₁ ctl₂ : Control)
    (hA : 'A' ≤ c) (hZ : c ≤ 'Z') (hne : ds ≠ []) (hdig : ∀ d ∈ ds, d.isDigit = true)
    (ht₁ : ctl₁.type = .integer)
    (hn₁ : ctl₁.name =
      'M' :: 'i' :: 'x' :: ' ' :: c ::
        (" Input ".toList ++ (ds ++ " Playback Volume".toList)))
    (ht₂ : ctl₂.type = .integer)
    (hn₂ : ctl₂.name =
      'M' :: 'a' :: 't' :: 'r' :: 'i' :: 'x' :: ' ' ::
        (ds ++ (' ' :: 'M' :: 'i' :: 'x' :: ' ' :: c :: " Playback Volume".toList))) :
    getMixerInputs [ctl₁] = [⟨"Mix ".toList ++ [c], digitsToNat ds, ctl₁⟩] ∧
    getMixerInputs [ctl₂] = [⟨"Mix ".toList ++ [c], digitsToNat ds, ctl₂⟩] := by
  constructor
  · have e1 : classifyMixerName ctl₁.name = some ("Mix ".toList ++ [c], digitsToNat ds) := by
      unfold classifyMixerName
      rw [hn₁, matchGen234_eval c ds hA hZ hne hdig]
    simp [getMixerInputs, List.filterMap, ht₁, e1]
  · have e0 : matchGen234 ctl₂.name = Option.none := by rw [hn₂]; rfl
    have e2 : classifyMixerName ctl₂.name = some ("Mix ".toList ++ [c], digitsToNat ds) := by
      unfold classifyMixerName
      rw [e0, hn₂, matchGen1_eval c ds hA hZ hne hdig]
    simp [getMixerInputs, List.filterMap, ht₂, e2]

/-- Witness for C5: "Mix A Input 01 Playback Volume" and
"Matrix 01 Mix A Playback Volume" both classify to mix "Mix A", input 1. -/
theorem mixer_conventions_agree_witness :
    getMixerInputs [⟨10, "Mix A Input 01 Playback Volume".toList, .integer,
        1, 0, 0, 0, 0, 255, []⟩] =
      [⟨"Mix A".toList, 1, ⟨10, "Mix A Input 01 Playback Volume".toList, .integer,
        1, 0, 0, 0, 0, 255, []⟩⟩] ∧
    getMixerInputs [⟨11, "Matrix 01 Mix A Playback Volume".toList, .integer,
        1, 0, 0, 0, 0, 255, []⟩] =
      [⟨"Mix A".toList, 1, ⟨11, "Matrix 01 Mix A Playback Volume".toList, .integer,
        1, 0, 0, 0, 0, 255, []⟩⟩] := by
  have h := mixer_conventions_agree 'A' ['0', '1']
    ⟨10, "Mix A Input 01 Playback Volume".toList, .integer, 1, 0, 0, 0, 0, 255, []⟩
    ⟨11, "Matrix 01 Mix A Playback Volume".toList, .integer, 1, 0, 0, 0, 0, 255, []⟩
    (by decide) (by decide) (by decide) (by decide) rfl (by decide) rfl (by decide)
  exact ⟨by rw [h.1]; decide, by rw [h.2]; decide⟩

/-- "Line In " prefix parsing shared by the nine preamp patterns: when the
name starts with "Line In " followed by a nonempty digit run, return the
digit run and the remainder after it. -/
def lineInRest (s : Str) : Option (Str × Str) :=
  match s with
  | 'L' :: 'i' :: 'n' :: 'e' :: ' ' :: 'I' :: 'n' :: ' ' :: rest =>
      if rest.takeWhile Char.isDigit ≠ [] then
        some (rest.takeWhile Char.isDigit, rest.drop (rest.takeWhile Char.isDigit).length)
      else Option.none
  | _ => Option.none

/-- An optional stereo-link group: a dash, a nonempty digit run, then the
exact given suffix. -/
def dashNumThen (suffix r : Str) : Bool :=
  match r with
  | '-' :: t =>
      !(t.takeWhile Char.isDigit).isEmpty &&
        t.drop (t.takeWhile Char.isDigit).length == suffix
  | _ => false

/-- Pattern "Line In N Gain Capture Volume". -/
def matchGain (s : Str) : Option Nat :=
  match lineInRest s with
  | some dr => if dr.2 = " Gain Capture Volume".toList then some (digitsToNat dr.1)
      else Option.none
  | Option.none => Option.none

/-- Pattern "Line In N Phantom Power Capture Switch" with an optional
stereo-link "-M" after the channel number. -/
def matchPhantom (s : Str) : Option Nat :=
  match lineInRest s with
  | some dr =>
      if dr.2 = " Phantom Power Capture Switch".toList ∨
          dashNumThen " Phantom Power Capture Switch".toList dr.2 = true then
        some (digitsToNat dr.1)
      else Option.none
  | Option.none => Option.none

/-- Pattern "Line In N Air Capture Switch" or "Line In N Air Capture Enum". -/
def matchAir (s : Str) : Option Nat :=
  match lineInRest s with
  | some dr =>
      if dr.2 = " Air Capture Switch".toList ∨ dr.2 = " Air Capture Enum".toList then
        some (digitsToNat dr.1)
      else Option.none
  | Option.none => Option.none

/-- Pattern "Line In N Pad Capture Switch". -/
def matchPad (s : Str) : Option Nat :=
  match lineInRest s with
  | some dr => if dr.2 = " Pad Capture Switch".toList then some (digitsToNat dr.1)
      else Option.none
  | Option.none => Option.none

/-- Pattern "Line In N Impedance Switch". -/
def matchImpedance (s : Str) : Option Nat :=
  match lineInRest s with
  | some dr => if dr.2 = " Impedance Switch".toList then some (digitsToNat dr.1)
      else Option.none
  | Option.none => Option.none

/-- Pattern "Line In N Level Capture Enum". -/
def matchLevel (s : Str) : Option Nat :=
  match lineInRest s with
  | some dr => if dr.2 = " Level Capture Enum".toList then some (digitsToNat dr.1)
      else Option.none
  | Option.none => Option.none

/-- Pattern "Line In N Autogain Capture Switch". -/
def matchAutogain (s : Str) : Option Nat :=
  match lineInRest s with
  | some dr => if dr.2 = " Autogain Capture Switch".toList then some (digitsToNat dr.1)
      else Option.none
  | Option.none => Option.none

/-- Pattern "Line In N Safe Capture Switch". -/
def matchSafe (s : Str) : Option Nat :=
  match lineInRest s with
  | some dr => if dr.2 = " Safe Capture Switch".toList then some (digitsToNat dr.1)
      else Option.none
  | Option.none => Option.none

/-- Pattern "Line In N-M Link Capture Switch" (the stereo-link group is
mandatory here). -/
def matchLink (s : Str) : Option Nat :=
  match lineInRest s with
  | some dr =>
      if dashNumThen " Link Capture Switch".toList dr.2 = true then
        some (digitsToNat dr.1)
      else Option.none
  | Option.none => Option.none

/-- The nine preamp slots of a channel. -/
inductive PreampSlot where
  | gain
  | phantom
  | air
  | pad
  | impedance
  | level
  | autogain
  | safe
  | link
deriving DecidableEq, Repr

/-- Preamp name classification: the nine patterns are tried in the fixed
order of the GetPreampChannels if/else chain; the first match wins. -/
def classifyPreamp (s : Str) : Option (PreampSlot × Nat) :=
  match matchGain s with
  | some n => some (.gain, n)
  | Option.none =>
  match matchPhantom s with
  | some n => some (.phantom, n)
  | Option.none =>
  match matchAir s with
  | some n => some (.air, n)
  | Option.none =>
  match matchPad s with
  | some n => some (.pad, n)
  | Option.none =>
  match matchImpedance s with
  | some n => some (.impedance, n)
  | Option.none =>
  match matchLevel s with
  | some n => some (.level, n)
  | Option.none =>
  match matchAutogain s with
  | some n => some (.autogain, n)
  | Option.none =>
  match matchSafe s with
  | some n => some (.safe, n)
  | Option.none =>
  match matchLink s with
  | some n => some (.link, n)
  | Option.none => Option.none

/-- A preamp channel: its number and up to nine optional slot controls. -/
structure PreampChannel where
  channelNum : Nat
  gain : Option Control := Option.none
  phantom : Option Control := Option.none
  air : Option Control := Option.none
  pad : Option Control := Option.none
  impedance : Option Control := Option.none
  level : Option Control := Option.none
  autogain : Option Control := Option.none
  safe : Option Control := Option.none
  link : Option Control := Option.none
deriving DecidableEq, Repr

/-- A channel with the given number and no populated slot. -/
def emptyChannel (n : Nat) : PreampChannel := { channelNum := n }

/-- Store a control into the named slot of a channel. -/
def setSlot (ch : PreampChannel) (sl : PreampSlot) (c : Control) : PreampChannel :=
  match sl with
  | .gain => { ch with gain := some c }
  | .phantom => { ch with phantom := some c }
  | .air => { ch with air := some c }
  | .pad => { ch with pad := some c }
  | .impedance => { ch with impedance := some c }
  | .level => { ch with level := some c }
  | .autogain => { ch with autogain := some c }
  | .safe => { ch with safe := some c }
  | .link => { ch with link := some c }

/-- Update the channel map at a channel number: create the channel entry on
first sight, then store the slot (the Go channelMap insert-or-update). -/
def updateChannel : List (Nat × PreampChannel) → Nat → PreampSlot → Control →
    List (Nat × PreampChannel)
  | [], n, sl, c => [(n, setSlot (emptyChannel n) sl c)]
  | (k, ch) :: rest, n, sl, c =>
      if k = n then (k, setSlot ch sl c) :: rest
      else (k, ch) :: updateChannel rest n sl c

/-- One step of the channel-map building loop: classify the control name
and update the map on a match. -/
def buildStep (m : List (Nat × PreampChannel)) (c : Control) : List (Nat × PreampChannel) :=
  match classifyPreamp c.name with
  | some sn => updateChannel m sn.2 sn.1 c
  | Option.none => m

/-- The sparse channel map built by scanning the control list. -/
def buildChannelMap (ctls : List Control) : List (Nat × PreampChannel) :=
  ctls.foldl buildStep []

/-- Lookup of a channel number in the channel map. -/
def lookupChannel (m : List (Nat × PreampChannel)) (n : Nat) : Option PreampChannel :=
  match m.find? (fun p => p.1 == n) with
  | some p => some p.2
  | Option.none => Option.none

/-- GetPreampChannels: build the channel map, then emit channels for the
numbers 1 .. (map size + 10) in ascending order, skipping absent numbers
(the Go loop "for i := 1; i <= len(channelMap)+10; i++"). -/
def getPreampChannels (ctls : List Control) : List PreampChannel :=
  (List.range' 1 ((buildChannelMap ctls).length + 10)).filterMap
    (lookupChannel (buildChannelMap ctls))

/-- Storing a slot never changes the channel number. -/
theorem setSlot_channelNum (ch : PreampChannel) (sl : PreampSlot) (c : Control) :
    (setSlot ch sl c).channelNum = ch.channelNum := by
  cases sl <;> rfl

/-- The key set after an update is the old key set plus the updated key. -/
theorem updateChannel_keys (m : List (Nat × PreampChannel)) (n : Nat) (sl : PreampSlot)
    (c : Control) (n' : Nat) :
    n' ∈ (updateChannel m n sl c).map Prod.fst ↔ n' ∈ m.map Prod.fst ∨ n' = n := by
  induction m with
  | nil => simp [updateChannel]
  | cons p rest ih =>
      obtain ⟨k, ch⟩ := p
      by_cases hk : k = n
      · subst hk
        simp [updateChannel]
        tauto
      · simp [updateChannel, hk, ih]
        tauto

/-- Every map entry built by updates stores a channel bearing its own key. -/
theorem updateChannel_inv (m : List (Nat × PreampChannel)) (n : Nat) (sl : PreampSlot)
    (c : Control) (hinv : ∀ p ∈ m, (p.2).channelNum = p.1) :
    ∀ p ∈ updateChannel m n sl c, (p.2).channelNum = p.1 := by
  induction m with
  | nil =>
      intro p hp
      rw [updateChannel] at hp
      rcases List.mem_singleton.mp hp with rfl
      simp [setSlot_channelNum, emptyChannel]
  | cons q rest ih =>
      obtain ⟨k, ch⟩ := q
      intro p hp
      rw [updateChannel] at hp
      by_cases hk : k = n
      · rw [if_pos hk] at hp
        rcases List.mem_cons.mp hp with rfl | hp'
        · simpa [setSlot_channelNum] using hinv (k, ch) (List.mem_cons_self _ _)
        · exact hinv p (List.mem_cons_of_mem _ hp')
      · rw [if_neg hk] at hp
        rcases List.mem_cons.mp hp with rfl | hp'
        · exact hinv (k, ch) (List.mem_cons_self _ _)
        · exact ih (fun q hq => hinv q (List.mem_cons_of_mem _ hq)) p hp' 

/-- A number is a key of the built channel map exactly when it was already a
key of the accumulator or some control classifies to it. -/
theorem buildMap_keys (ctls : List Control) (m₀ : List (Nat × PreampChannel)) (n : Nat) :
    n ∈ (ctls.foldl buildStep m₀).map Prod.fst ↔
      n ∈ m₀.map Prod.fst ∨ ∃ c ∈ ctls, ∃ sl, classifyPreamp c.name = some (sl, n) := by
  induction ctls generalizing m₀ with
  | nil => simp
  | cons c ctls ih =>
      rw [List.foldl_cons, ih]
      unfold buildStep
      cases hcl : classifyPreamp c.name with
      | none =>
          simp only [List.mem_cons]
          constructor
          · rintro (h | ⟨c', hc', hsl⟩)
            · exact Or.inl h
            · exact Or.inr ⟨c', Or.inr hc', hsl⟩
          · rintro (h | ⟨c', (rfl | hc'), hsl⟩)
            · exact Or.inl h
            · rw [hcl] at hsl
              obtain ⟨sl, hsl⟩ := hsl
              cases hsl
            · exact Or.inr ⟨c', hc', hsl⟩
      | some sn =>
          obtain ⟨sl₀, n₀⟩ := sn
          rw [updateChannel_keys]
          simp only [List.mem_cons]
          constructor
          · rintro ((h | rfl) | ⟨c', hc', hsl⟩)
            · exact Or.inl h
            · exact Or.inr ⟨c, Or.inl rfl, sl₀, by rw [hcl]⟩
            · exact Or.inr ⟨c', Or.inr hc', hsl⟩
          · rintro (h | ⟨c', (rfl | hc'), hsl⟩)
            · exact Or.inl (Or.inl h)
            · rw [hcl] at hsl
              obtain ⟨sl, hsl⟩ := hsl
              obtain ⟨-, rfl⟩ := Prod.mk.injEq .. ▸ Option.some.injEq .. ▸ hsl
              exact Or.inl (Or.inr rfl)
            · exact Or.inr ⟨c', hc', hsl⟩

/-- The channel-number invariant holds for the whole built map. -/
theorem buildMap_inv (ctls : List Control) (m₀ : List (Nat × PreampChannel))
    (hinv : ∀ p ∈ m₀, (p.2).channelNum = p.1) :
    ∀ p ∈ ctls.foldl buildStep m₀, (p.2).channelNum = p.1 := by
  induction ctls generalizing m₀ with
  | nil => simpa using hinv
  | cons c ctls ih =>
      rw [List.foldl_cons]
      apply ih
      unfold buildStep
      cases hcl : classifyPreamp c.name with
      | none => exact hinv
      | some sn => exact updateChannel_inv m₀ sn.2 sn.1 c hinv

/-- A successful channel lookup returns a channel bearing the looked-up
number. -/
theorem lookupChannel_channelNum {m : List (Nat × PreampChannel)} {n : Nat}
    {ch : PreampChannel} (hinv : ∀ p ∈ m, (p.2).channelNum = p.1)
    (h : lookupChannel m n = some ch) : ch.channelNum = n := by
  unfold lookupChannel at h
  cases hf : m.find? (fun p => p.1 == n) with
  | none => rw [hf] at h; cases h
  | some p =>
      rw [hf] at h
      simp only [Option.some.injEq] at h
      subst h
      have h1 := List.find?_some hf
      have h2 := List.mem_of_find?_eq_some hf
      simp only [beq_iff_eq] at h1
      rw [hinv p h2, h1]

/-- A channel number has a successful lookup exactly when it is a key of the
map. -/
theorem lookupChannel_isSome_iff (m : List (Nat × PreampChannel)) (n : Nat) :
    (∃ ch, lookupChannel m n = some ch) ↔ n ∈ m.map Prod.fst := by
  unfold lookupChannel
  cases hf : m.find? (fun p => p.1 == n) with
  | none =>
      simp only [reduceCtorEq, exists_false, false_iff]
      intro hmem
      obtain ⟨p, hp, hfst⟩ := List.mem_map.mp hmem
      have hs : (m.find? (fun q => q.1 == n)).isSome = true :=
        List.find?_isSome.mpr ⟨p, hp, by simp [hfst]⟩
      rw [hf] at hs
      cases hs
  | some p =>
      simp only [Option.some.injEq, exists_eq', true_iff]
      have h1 := List.find?_some hf
      have h2 := List.mem_of_find?_eq_some hf
      simp only [beq_iff_eq] at h1
      exact List.mem_map.mpr ⟨p, h2, h1⟩

/-- Membership in the 1-based emit range. -/
theorem mem_range_one {m K : Nat} : m ∈ List.range' 1 K ↔ 1 ≤ m ∧ m ≤ K := by
  rw [List.mem_range']
  constructor
  · rintro ⟨i, hi, rfl⟩
    omega
  · intro h
    exact ⟨m - 1, by omega, by omega⟩

/-- Claim C1 (amended): getPreampChannels emits channels in strictly
ascending channel-number order, skipping unpopulated gaps, and a channel
number appears in the result iff some control name matched one of the nine
slot patterns with that number AND the number lies within the emit range
1 .. (number of populated channels + 10).  The emit loop is bounded by the
map size plus ten, so populated channel numbers beyond that bound are
dropped: the unbounded claim fails (see the counterexample theorem). -/
theorem getPreampChannels_amended (ctls : List Control) :
    List.Pairwise (fun a b => a.channelNum < b.channelNum) (getPreampChannels ctls) ∧
    ∀ n : Nat,
      (∃ ch ∈ getPreampChannels ctls, ch.channelNum = n) ↔
      ((∃ c ∈ ctls, ∃ sl, classifyPreamp c.name = some (sl, n)) ∧
        1 ≤ n ∧ n ≤ (buildChannelMap ctls).length + 10) := by
  have hinv : ∀ p ∈ buildChannelMap ctls, (p.2).channelNum = p.1 :=
    buildMap_inv ctls [] (by simp)
  constructor
  · unfold getPreampChannels
    refine List.Pairwise.filterMap _ ?_ (List.pairwise_lt_range' 1 _)
    intro a b hab x hx y hy
    rw [Option.mem_def] at hx hy
    rw [lookupChannel_channelNum hinv hx, lookupChannel_channelNum hinv hy]
    exact hab
  · intro n
    constructor
    · rintro ⟨ch, hch, hn⟩
      unfold getPreampChannels at hch
      obtain ⟨i, hi, hlk⟩ := List.mem_filterMap.mp hch
      have hnum := lookupChannel_channelNum hinv hlk
      have hni : i = n := by rw [← hn, hnum]
      subst hni
      have hkey : i ∈ (buildChannelMap ctls).map Prod.fst :=
        (lookupChannel_isSome_iff _ _).mp ⟨ch, hlk⟩
      have hrange := mem_range_one.mp hi
      have hx := (buildMap_keys ctls [] i).mp hkey
      refine ⟨?_, hrange.1, by omega⟩
      simpa using hx
    · rintro ⟨hex, h1, h2⟩
      have hkey : n ∈ (buildChannelMap ctls).map Prod.fst :=
        (buildMap_keys ctls [] n).mpr (Or.inr hex)
      obtain ⟨ch, hlk⟩ := (lookupChannel_isSome_iff _ _).mpr hkey
      refine ⟨ch, ?_, lookupChannel_channelNum hinv hlk⟩
      unfold getPreampChannels
      exact List.mem_filterMap.mpr ⟨n, mem_range_one.mpr ⟨h1, by omega⟩, hlk⟩

/-- Counterexample for C1: a single control "Line In 12 Gain Capture Volume"
matches the gain pattern for channel 12, yet getPreampChannels returns the
empty list — the emit loop runs only up to map size (1) plus 10 = 11, so
channel 12 is dropped even though one of its slots matched. -/
theorem getPreampChannels_drops_high_channel :
    classifyPreamp "Line In 12 Gain Capture Volume".toList = some (.gain, 12) ∧
    getPreampChannels [⟨5, "Line In 12 Gain Capture Volume".toList, .integer,
      1, 0, 0, 0, 0, 255, []⟩] = [] := by
  decide

/-- The registry read layer as seen by the event monitor: a snapshot maps a
control identity (numeric id and value index) to its current value, or to
nothing when the read fails. -/
abbrev Snapshot := Nat → Nat → Option Int

/-- Lookup in the last-seen-value table keyed by numeric id. -/
def lookupA (l : List (Nat × Int)) (k : Nat) : Option Int :=
  match l.find? (fun p => p.1 == k) with
  | some p => some p.2
  | Option.none => Option.none

/-- Map write into the last-seen-value table (Go map assignment). -/
def updateA : List (Nat × Int) → Nat → Int → List (Nat × Int)
  | [], k, v => [(k, v)]
  | (k', v') :: rest, k, v =>
      if k' = k then (k, v) :: rest
      else (k', v') :: updateA rest k v

/-- Final last-seen table after one notification pass of WatchWithDisplay:
each control of the (startup-captured) list is read; unreadable controls are
skipped; a control whose table entry exists and equals the read value is
skipped; otherwise the table is updated. -/
def passLast (snap : Snapshot) : List Control → List (Nat × Int) → List (Nat × Int)
  | [], last => last
  | c :: rest, last =>
      match snap c.numID c.index with
      | Option.none => passLast snap rest last
      | some v =>
          if lookupA last c.numID = some v then passLast snap rest last
          else passLast snap rest (updateA last c.numID v)

/-- Display events of one notification pass of WatchWithDisplay: a line is
printed (the callback fires) exactly for the controls that are readable and
not skipped by the last-seen check, in control order. -/
def passOut (snap : Snapshot) : List Control → List (Nat × Int) → List (Nat × Int)
  | [], _ => []
  | c :: rest, last =>
      match snap c.numID c.index with
      | Option.none => passOut snap rest last
      | some v =>
          if lookupA last c.numID = some v then passOut snap rest last
          else (c.numID, v) :: passOut snap rest (updateA last c.numID v)

/-- The WatchWithDisplay loop over a sequence of drained notifications.  The
control list is captured once before the loop (as WatchControls does) and the
last-seen table threads through the passes; the result is the per-pass lists
of display events. -/
def watchRun (controls : List Control) : List Snapshot → List (Nat × Int) →
    List (List (Nat × Int))
  | [], _ => []
  | s :: ss, last => passOut s controls last :: watchRun controls ss (passLast s controls last)

/-- Writing a key makes its lookup return the written value. -/
theorem lookupA_updateA_self (l : List (Nat × Int)) (k : Nat) (v : Int) :
    lookupA (updateA l k v) k = some v := by
  induction l with
  | nil => simp [updateA, lookupA, List.find?]
  | cons p rest ih =>
      obtain ⟨k', v'⟩ := p
      by_cases hk : k' = k
      · subst hk
        simp [updateA, lookupA, List.find?]
      · rw [updateA, if_neg hk]
        unfold lookupA at ih ⊢
        rw [List.find?_cons]
        have : ((k', v').1 == k) = false := by simpa using hk
        rw [this]
        exact ih

/-- Writing one key leaves lookups of other keys unchanged. -/
theorem lookupA_updateA_ne (l : List (Nat × Int)) (k k' : Nat) (v : Int)
    (h : k' ≠ k) : lookupA (updateA l k v) k' = lookupA l k' := by
  induction l with
  | nil =>
      simp only [updateA, lookupA, List.find?]
      have : ((k, v).1 == k') = false := by simpa using fun hc => h hc.symm
      rw [this]
  | cons p rest ih =>
      obtain ⟨a, b⟩ := p
      by_cases hk : a = k
      · rw [updateA, if_pos hk]
        unfold lookupA
        rw [List.find?_cons, List.find?_cons]
        have h1 : ((k, v).1 == k') = false := by simpa using fun hc => h hc.symm
        have h2 : ((a, b).1 == k') = false := by
          simp only [hk]
          simpa using fun hc => h hc.symm
        rw [h1, h2]
      · rw [updateA, if_neg hk]
        unfold lookupA at ih ⊢
        rw [List.find?_cons, List.find?_cons]
        cases hab : ((a, b).1 == k') with
        | true => rfl
        | false => exact ih

/-- A pass never touches table entries of keys outside the control list. -/
theorem passLast_not_mem (snap : Snapshot) (controls : List Control) :
    ∀ (last : List (Nat × Int)) (k : Nat),
      k ∉ controls.map (fun c => c.numID) →
      lookupA (passLast snap controls last) k = lookupA last k := by
  induction controls with
  | nil => intro last k _; rfl
  | cons c rest ih =>
      intro last k hk
      have hkc : c.numID ≠ k := fun h => hk (by simp [h])
      have hk' : k ∉ rest.map (fun x => x.numID) := fun h => hk (by simp [h])
      cases hs : snap c.numID c.index with
      | none => simp only [passLast, hs]; exact ih last k hk'
      | some v =>
          simp only [passLast, hs]
          by_cases hlv : lookupA last c.numID = some v
          · rw [if_pos hlv]; exact ih last k hk'
          · rw [if_neg hlv, ih _ k hk', lookupA_updateA_ne _ _ _ _ (fun h => hkc h.symm)]

/-- After a pass with pairwise-distinct ids, the table records the read
value of every readable control. -/
theorem passLast_lookup (snap : Snapshot) :
    ∀ (controls : List Control) (last : List (Nat × Int)),
      (controls.map (fun c => c.numID)).Nodup →
      ∀ c ∈ controls, ∀ v, snap c.numID c.index = some v →
        lookupA (passLast snap controls last) c.numID = some v := by
  intro controls
  induction controls with
  | nil => intro last _ c hc; cases hc
  | cons d rest ih =>
      intro last hnd c hc v hv
      have hnd' := (List.nodup_cons.mp hnd).2
      rcases List.mem_cons.mp hc with rfl | hc'
      · have hnotin : c.numID ∉ rest.map (fun x => x.numID) := by
          simpa using (List.nodup_cons.mp hnd).1
        simp only [passLast, hv]
        by_cases hlv : lookupA last c.numID = some v
        · rw [if_pos hlv, passLast_not_mem snap rest last c.numID hnotin]
          exact hlv
        · rw [if_neg hlv, passLast_not_mem snap rest _ c.numID hnotin,
            lookupA_updateA_self]
      · cases hs : snap d.numID d.index with
        | none =>
            simp only [passLast, hs]
            exact ih last hnd' c hc' v hv
        | some w =>
            simp only [passLast, hs]
            by_cases hlv : lookupA last d.numID = some w
            · rw [if_pos hlv]; exact ih last hnd' c hc' v hv
            · rw [if_neg hlv]; exact ih _ hnd' c hc' v hv

/-- A pass in which every readable control already has its value recorded
fires no callback at all. -/
theorem passOut_silent (snap : Snapshot) :
    ∀ (controls : List Control) (last : List (Nat × Int)),
      (∀ c ∈ controls, ∀ v, snap c.numID c.index = some v →
        lookupA last c.numID = some v) →
      passOut snap controls last = [] := by
  intro controls
  induction controls with
  | nil => intro last _; rfl
  | cons c rest ih =>
      intro last h
      cases hs : snap c.numID c.index with
      | none =>
          simp only [passOut, hs]
          exact ih last fun c' hc' v hv => h c' (List.mem_cons_of_mem _ hc') v hv
      | some v =>
          have hlv := h c (List.mem_cons_self _ _) v hs
          simp only [passOut, hs, if_pos hlv]
          exact ih last fun c' hc' v hv => h c' (List.mem_cons_of_mem _ hc') v hv

/-- Every display event of a pass carries the id of some listed control. -/
theorem passOut_keys (snap : Snapshot) :
    ∀ (controls : List Control) (last : List (Nat × Int)),
      ∀ q ∈ passOut snap controls last, q.1 ∈ controls.map (fun c => c.numID) := by
  intro controls
  induction controls with
  | nil => intro last q hq; cases hq
  | cons c rest ih =>
      intro last q hq
      cases hs : snap c.numID c.index with
      | none =>
          simp only [passOut, hs] at hq
          simp only [List.map_cons, List.mem_cons]
          exact Or.inr (ih last q hq)
      | some v =>
          simp only [passOut, hs] at hq
          by_cases hlv : lookupA last c.numID = some v
          · rw [if_pos hlv] at hq
            simp only [List.map_cons, List.mem_cons]
            exact Or.inr (ih last q hq)
          · rw [if_neg hlv] at hq
            rcases List.mem_cons.mp hq with rfl | hq'
            · simp
            · simp only [List.map_cons, List.mem_cons]
              exact Or.inr (ih _ q hq')

/-- Per-control callback count of one pass, with pairwise-distinct ids: zero
for an unreadable control, zero for a control whose recorded value equals
the read value, and exactly one otherwise (first sighting included). -/
theorem passOut_count (snap : Snapshot) (c : Control) :
    ∀ (controls : List Control) (last : List (Nat × Int)),
      (controls.map (fun x => x.numID)).Nodup → c ∈ controls →
      (passOut snap controls last).countP (fun q => q.1 == c.numID) =
        (match snap c.numID c.index with
         | Option.none => 0
         | some v => if lookupA last c.numID = some v then 0 else 1) := by
  intro controls
  induction controls with
  | nil => intro last _ hc; cases hc
  | cons d rest ih =>
      intro last hnd hc
      have hnd' := (List.nodup_cons.mp hnd).2
      rcases List.mem_cons.mp hc with rfl | hc'
      · have hnotin : c.numID ∉ rest.map (fun x => x.numID) := by
          simpa using (List.nodup_cons.mp hnd).1
        have hzero : ∀ l', (passOut snap rest l').countP (fun q => q.1 == c.numID) = 0 := by
          intro l'
          rw [List.countP_eq_zero]
          intro q hq
          have hkey := passOut_keys snap rest l' q hq
          simp only [beq_iff_eq]
          intro hEq
          rw [hEq] at hkey
          exact hnotin hkey
        cases hs : snap c.numID c.index with
        | none => simp only [passOut, hs]; exact hzero last
        | some v =>
            simp only [passOut, hs]
            by_cases hlv : lookupA last c.numID = some v
            · rw [if_pos hlv, if_pos hlv]
              exact hzero last
            · rw [if_neg hlv, if_neg hlv, List.countP_cons]
              simp only [beq_self_eq_true, if_true]
              rw [hzero _]
      · have hdmem : d.numID ∉ rest.map (fun x => x.numID) := by
          simpa using (List.nodup_cons.mp hnd).1
        have hdc : d.numID ≠ c.numID := fun hEq =>
          hdmem (by rw [hEq]; exact List.mem_map.mpr ⟨c, hc', rfl⟩)
        cases hs : snap d.numID d.index with
        | none => simp only [passOut, hs]; exact ih last hnd' hc'
        | some w =>
            simp only [passOut, hs]
            by_cases hlv : lookupA last d.numID = some w
            · rw [if_pos hlv]; exact ih last hnd' hc'
            · rw [if_neg hlv, List.countP_cons]
              have hne : ((d.numID, w).1 == c.numID) = false := by simpa using hdc
              rw [hne]
              simp only [Bool.false_eq_true, if_false, add_zero]
              rw [ih _ hnd' hc']
              cases hs2 : snap c.numID c.index with
              | none => rfl
              | some v =>
                  rw [lookupA_updateA_ne _ _ _ _ (fun h => hdc h.symm)]

/-- Claim C2 (amended): the monitor captures the control list once before
the loop, not per notification; for each drained notification it reads each
listed control's live value, skips unreadable ones, and — when ids are
pairwise distinct — the display callback fires exactly once for each control
whose read value differs from its last-seen entry or that has no entry yet
(so the first sighting fires, including on the first notification), and zero
times for an unreadable control or one whose value is unchanged; a second
pass over the same values fires nothing. -/
theorem watch_display_behavior (controls : List Control) (snap : Snapshot)
    (last : List (Nat × Int))
    (hnd : (controls.map (fun c => c.numID)).Nodup) :
    (∀ c ∈ controls,
      (passOut snap controls last).countP (fun q => q.1 == c.numID) =
        (match snap c.numID c.index with
         | Option.none => 0
         | some v => if lookupA last c.numID = some v then 0 else 1)) ∧
    passOut snap controls (passLast snap controls last) = [] := by
  constructor
  · intro c hc
    exact passOut_count snap c controls last hnd hc
  · exact passOut_silent snap controls _
      (fun c hc v hv => passLast_lookup snap controls last hnd c hc v hv)

/-- Witness for C2 (amended): two controls with ids 1 and 2; id 1 is
readable with value 5 and already recorded as 5, id 2 is unreadable — the
pass fires no callback for control 1. -/
theorem watch_display_behavior_witness :
    (passOut (fun k _ => if k = 1 then some 5 else Option.none)
        [⟨1, [], .boolean, 1, 0, 0, 0, 0, 1, []⟩, ⟨2, [], .boolean, 1, 0, 0, 0, 0, 1, []⟩]
        [(1, 5)]).countP (fun q => q.1 == 1) = 0 := by
  have h := watch_display_behavior
      [⟨1, [], .boolean, 1, 0, 0, 0, 0, 1, []⟩, ⟨2, [], .boolean, 1, 0, 0, 0, 0, 1, []⟩]
      (fun k _ => if k = 1 then some 5 else Option.none) [(1, 5)] (by decide)
  have h2 := h.1 ⟨1, [], .boolean, 1, 0, 0, 0, 0, 1, []⟩ (by decide)
  exact h2.trans (by decide)

/-- Counterexample for C2: on the very first notification, a control seen
for the first time fires the display callback — watchRun over one snapshot
with one never-seen control emits one event, refuting "the first sighting
establishes its baseline silently (no callback fires on startup)". -/
theorem watch_display_first_sighting_fires :
    watchRun [⟨1, [], .boolean, 1, 0, 0, 0, 0, 1, []⟩]
      [fun _ _ => some 5] [] = [[(1, 5)]] := rfl

/-- Errors of the routing bulk listing: no routing sink exists, or a sink's
value could not be read (GetRouting aborts on the first such sink). -/
inductive ListingErr where
  | noRoutingFound
  | readFailed (name : Str)
deriving DecidableEq, Repr

/-- Control.GetValue against a registry snapshot. -/
def getValueOf (snap : Snapshot) (c : Control) : Option Int := snap c.numID c.index

/-- GetRoutingSinks filtering: enumerated controls whose name passes sink
detection, in control-enumeration order. -/
def routingSinks (ctls : List Control) : List Control :=
  ctls.filter fun c => (c.type == ControlType.enumerated) && isRoutingSink c.name

/-- Map write into the name-keyed routing map. -/
def updateS : List (Str × Int) → Str → Int → List (Str × Int)
  | [], k, v => [(k, v)]
  | (k', v') :: rest, k, v =>
      if k' = k then (k, v) :: rest
      else (k', v') :: updateS rest k v

/-- The GetRouting loop: read each sink in order; the first read failure
aborts the whole listing with an error, otherwise record name ↦ value. -/
def goRouting (snap : Snapshot) : List Control → List (Str × Int) →
    Except ListingErr (List (Str × Int))
  | [], acc => Except.ok acc
  | s :: rest, acc =>
      match getValueOf snap s with
      | Option.none => Except.error (ListingErr.readFailed s.name)
      | some v => goRouting snap rest (updateS acc s.name v)

/-- GetRouting: collect the sinks (failing when none exist) and run the
reading loop over them. -/
def getRouting (snap : Snapshot) (ctls : List Control) :
    Except ListingErr (List (Str × Int)) :=
  match routingSinks ctls with
  | [] => Except.error ListingErr.noRoutingFound
  | s :: rest => goRouting snap (s :: rest) []

/-- One output line of the mixer state listing: a mix group header, an error
line for an unreadable input, or a value line with the control's range. -/
inductive MixLine where
  | header (mix : Str)
  | errLine (inputNum : Nat)
  | valLine (inputNum : Nat) (v : Int) (lo : Int) (hi : Int)
deriving DecidableEq, Repr

/-- The PrintMixerState loop: a header whenever the mix name changes, then
per input either an error line (read failed — the loop continues) or a
value line. -/
def goMixLines (snap : Snapshot) : List MixerInput → Str → List MixLine
  | [], _ => []
  | i :: rest, current =>
      (if i.mixName ≠ current then [MixLine.header i.mixName] else []) ++
      ((match getValueOf snap i.control with
        | Option.none => [MixLine.errLine i.inputNum]
        | some v => [MixLine.valLine i.inputNum v i.control.min i.control.max]) ++
       goMixLines snap rest i.mixName)

/-- PrintMixerState starts with an empty current-mix marker. -/
def printMixerState (snap : Snapshot) (inputs : List MixerInput) : List MixLine :=
  goMixLines snap inputs []

/-- Header-line discriminator. -/
def isHeaderLine : MixLine → Bool
  | .header _ => true
  | _ => false

/-- A header line is a header line. -/
theorem isHeaderLine_header (m : Str) : isHeaderLine (MixLine.header m) = true := rfl

/-- An error line is not a header line. -/
theorem isHeaderLine_err (n : Nat) : isHeaderLine (MixLine.errLine n) = false := rfl

/-- A value line is not a header line. -/
theorem isHeaderLine_val (n : Nat) (v lo hi : Int) :
    isHeaderLine (MixLine.valLine n v lo hi) = false := rfl

/-- Go strings.ToLower over the ASCII range. -/
def toLowerStr (s : Str) : Str := s.map Char.toLower

/-- Go strings.EqualFold (ASCII model): equality after lower-casing. -/
def equalFold (a b : Str) : Bool := toLowerStr a == toLowerStr b

/-- The enumerated parse loop of SetValueByString: index of the first item
matching the given text case-insensitively. -/
def findFoldIdx : List Str → Str → Option Nat
  | [], _ => Option.none
  | it :: rest, s =>
      if equalFold it s = true then some 0
      else (findFoldIdx rest s).map (· + 1)

/-- A leading decimal digit run, parsed; failure when there is none. -/
def readDec (s : Str) : Option Nat :=
  if s.takeWhile Char.isDigit = [] then Option.none
  else some (digitsToNat (s.takeWhile Char.isDigit))

/-- fmt.Sscanf with the %d verb: skip leading white space, accept an
optional sign and a nonempty digit run, ignore any trailing text. -/
def sscanfInt (s : Str) : Option Int :=
  match s.dropWhile Char.isWhitespace with
  | '-' :: t => (readDec t).map (fun n => -(n : Int))
  | '+' :: t => (readDec t).map (fun n => (n : Int))
  | t => (readDec t).map (fun n => (n : Int))

/-- Decimal rendering of an integer (the %d format). -/
def intToDec (v : Int) : Str :=
  if v < 0 then '-' :: Nat.toDigits 10 v.natAbs else Nat.toDigits 10 v.natAbs

/-- Control.GetValueString applied to an already-read value: booleans render
as "Off"/"On", enumerated values as the item name or "Unknown(v)" out of
range, numeric types as decimal text. -/
def getValueString (ctl : Control) (v : Int) : Str :=
  match ctl.type with
  | .boolean => if v = 0 then "Off".toList else "On".toList
  | .enumerated =>
      if 0 ≤ v ∧ v < ctl.items.length then ctl.items.getD v.toNat []
      else "Unknown(".toList ++ intToDec v ++ [')']
  | _ => intToDec v

/-- Control.SetValueByString: booleans accept the case-insensitive on/off
token families; enumerated controls try a case-insensitive exact item-name
match first and then a numeric index; numeric types parse decimal text; the
selected value then goes through setValue. -/
def setValueByString (ctl : Control) (s : Str) : SetOutcome :=
  match ctl.type with
  | .boolean =>
      if toLowerStr s = "on".toList ∨ toLowerStr s = "true".toList ∨
          toLowerStr s = "1".toList ∨ toLowerStr s = "yes".toList then
        setValue ctl 1
      else if toLowerStr s = "off".toList ∨ toLowerStr s = "false".toList ∨
          toLowerStr s = "0".toList ∨ toLowerStr s = "no".toList then
        setValue ctl 0
      else SetOutcome.invalidFormat
  | .enumerated =>
      match findFoldIdx ctl.items s with
      | some i => setValue ctl i
      | Option.none =>
          match sscanfInt s with
          | some idx => setValue ctl idx
          | Option.none => SetOutcome.invalidFormat
  | .integer =>
      match sscanfInt s with
      | some v => setValue ctl v
      | Option.none => SetOutcome.invalidFormat
  | .integer64 =>
      match sscanfInt s with
      | some v => setValue ctl v
      | Option.none => SetOutcome.invalidFormat
  | _ => SetOutcome.unsupportedType

/-- Case-insensitive comparison is reflexive. -/
theorem equalFold_refl (a : Str) : equalFold a a = true := by
  simp [equalFold]

/-- A successful setValue on an enumerated control writes exactly the
requested value, which must be an in-range index. -/
theorem setValue_written_enum {ctl : Control} {w v : Int}
    (he : ctl.type = .enumerated) (h : setValue ctl w = .written v) :
    v = w ∧ 0 ≤ w ∧ w < ctl.items.length := by
  have h1 : ¬((ctl.type = .integer ∨ ctl.type = .integer64) ∧
      (w < ctl.min ∨ w > ctl.max)) := by
    rw [he]; rintro ⟨hc | hc, -⟩ <;> cases hc
  unfold setValue at h
  rw [if_neg h1] at h
  by_cases hb : w < 0 ∨ w ≥ ctl.items.length
  · rw [if_pos ⟨he, hb⟩] at h
    cases h
  · rw [if_neg (fun hc => hb hc.2)] at h
    have h2 : SetOutcome.written w = SetOutcome.written v := by
      rw [← h]
      unfold writeControlOutcome
      rw [he]
    push_neg at hb
    injection h2 with h3
    exact ⟨h3.symm, hb.1, hb.2⟩

/-- setValue on a boolean control always writes (no validation applies). -/
theorem setValue_bool_eval {ctl : Control} (h : ctl.type = .boolean) (v : Int) :
    setValue ctl v = .written v := by
  have h1 : ¬(ctl.type = .integer ∨ ctl.type = .integer64) := by
    rw [h]; rintro (hc | hc) <;> cases hc
  have h2 : ctl.type ≠ .enumerated := by rw [h]; intro hc; cases hc
  simp [setValue, writeControlOutcome, h1, h2, h]

/-- setValue on an enumerated control accepts every in-range index. -/
theorem setValue_enum_eval {ctl : Control} (h : ctl.type = .enumerated) (w : Int)
    (h0 : 0 ≤ w) (hlt : w < ctl.items.length) : setValue ctl w = .written w := by
  have h1 : ¬((ctl.type = .integer ∨ ctl.type = .integer64) ∧
      (w < ctl.min ∨ w > ctl.max)) := by
    rw [h]; rintro ⟨hc | hc, -⟩ <;> cases hc
  have h2 : ¬(ctl.type = .enumerated ∧ (w < 0 ∨ w ≥ ctl.items.length)) := by
    rintro ⟨-, hr | hr⟩
    · exact absurd h0 (not_le.mpr hr)
    · exact absurd hlt (not_lt.mpr hr)
  unfold setValue
  rw [if_neg h1, if_neg h2]
  unfold writeControlOutcome
  rw [h]

/-- With pairwise case-insensitively distinct items, the first fold-match of
the v-th item is the v-th item itself. -/
theorem findFoldIdx_self :
    ∀ (items : List Str) (v : Nat), v < items.length →
      items.Pairwise (fun a b => ¬ equalFold a b = true) →
      findFoldIdx items (items.getD v []) = some v := by
  intro items
  induction items with
  | nil => intro v hv; simp at hv
  | cons it rest ih =>
      intro v hv hpw
      cases v with
      | zero =>
          rw [List.getD_cons_zero]
          simp [findFoldIdx, equalFold_refl]
      | succ n =>
          have hn : n < rest.length := by simpa using hv
          have hmem : rest.getD n [] ∈ rest := by
            rw [List.getD_eq_getElem rest [] hn]
            exact List.getElem_mem hn
          have hne : ¬ equalFold it ((it :: rest).getD (n + 1) []) = true := by
            rw [List.getD_cons_succ]
            exact (List.pairwise_cons.mp hpw).1 _ hmem
          rw [findFoldIdx, if_neg hne, List.getD_cons_succ,
            ih n hn (List.pairwise_cons.mp hpw).2]
          rfl

/-- Evaluation of the string setter on a boolean control. -/
theorem setValueByString_bool_eq {ctl : Control} (h : ctl.type = .boolean) (s : Str) :
    setValueByString ctl s =
      (if toLowerStr s = "on".toList ∨ toLowerStr s = "true".toList ∨
          toLowerStr s = "1".toList ∨ toLowerStr s = "yes".toList then
        setValue ctl 1
      else if toLowerStr s = "off".toList ∨ toLowerStr s = "false".toList ∨
          toLowerStr s = "0".toList ∨ toLowerStr s = "no".toList then
        setValue ctl 0
      else SetOutcome.invalidFormat) := by
  unfold setValueByString
  rw [h]

/-- Evaluation of the string setter on an enumerated control. -/
theorem setValueByString_enum_eq {ctl : Control} (h : ctl.type = .enumerated) (s : Str) :
    setValueByString ctl s =
      (match findFoldIdx ctl.items s with
       | some i => setValue ctl i
       | Option.none =>
           match sscanfInt s with
           | some idx => setValue ctl idx
           | Option.none => SetOutcome.invalidFormat) := by
  unfold setValueByString
  rw [h]

/-- Evaluation of the stringifier on a boolean control. -/
theorem getValueString_bool_eq {ctl : Control} (h : ctl.type = .boolean) (v : Int) :
    getValueString ctl v = (if v = 0 then "Off".toList else "On".toList) := by
  unfold getValueString
  rw [h]

/-- Evaluation of the stringifier on an enumerated control. -/
theorem getValueString_enum_eq {ctl : Control} (h : ctl.type = .enumerated) (v : Int) :
    getValueString ctl v =
      (if 0 ≤ v ∧ v < ctl.items.length then ctl.items.getD v.toNat []
       else "Unknown(".toList ++ intToDec v ++ [')']) := by
  unfold getValueString
  rw [h]

/-- Re-parsing the display text of an in-range enumerated value selects the
same index, given pairwise case-insensitively distinct items. -/
theorem reparse_item {ctl : Control} (he : ctl.type = .enumerated)
    (hpw : ctl.items.Pairwise (fun a b => ¬ equalFold a b = true))
    (v : Int) (h0 : 0 ≤ v) (hlt : v < ctl.items.length) :
    setValueByString ctl (ctl.items.getD v.toNat []) = .written v := by
  rw [setValueByString_enum_eq he]
  have hlen : v.toNat < ctl.items.length := by omega
  rw [findFoldIdx_self ctl.items v.toNat hlen hpw]
  show setValue ctl ((v.toNat : Nat) : Int) = .written v
  rw [Int.toNat_of_nonneg h0]
  exact setValue_enum_eval he v h0 hlt

/-- Claim C8 (amended): display idempotence of the parse/stringify pair
holds for every boolean control, and for every enumerated control whose
items are pairwise case-insensitively distinct: whenever parsing a string
selects and writes a value, stringifying that value and parsing the result
again writes the same value.  (With case-fold-duplicate items the numeric
parse path can select a later duplicate whose display text re-parses to the
first duplicate — see the counterexample.) -/
theorem parse_stringify_idempotent (ctl : Control) (s : Str) (v : Int)
    (htype : ctl.type = .boolean ∨
      (ctl.type = .enumerated ∧ ctl.items.Pairwise (fun a b => ¬ equalFold a b = true)))
    (hacc : setValueByString ctl s = .written v) :
    setValueByString ctl (getValueString ctl v) = .written v := by
  rcases htype with hb | ⟨he, hpw⟩
  · rw [setValueByString_bool_eq hb] at hacc
    split_ifs at hacc with hOn hOff
    · have hv : v = 1 := by
        rw [setValue_bool_eval hb 1] at hacc
        injection hacc with h'
        exact h'.symm
      rw [hv, getValueString_bool_eq hb,
        if_neg (by decide : ¬((1:Int) = 0)), setValueByString_bool_eq hb,
        if_pos (Or.inl (by decide : toLowerStr "On".toList = "on".toList))]
      exact setValue_bool_eval hb 1
    · have hv : v = 0 := by
        rw [setValue_bool_eval hb 0] at hacc
        injection hacc with h'
        exact h'.symm
      rw [hv, getValueString_bool_eq hb, if_pos rfl, setValueByString_bool_eq hb,
        if_neg (by decide), if_pos (Or.inl (by decide : toLowerStr "Off".toList = "off".toList))]
      exact setValue_bool_eval hb 0
  · rw [setValueByString_enum_eq he] at hacc
    have hbounds : 0 ≤ v ∧ v < ctl.items.length := by
      cases hidx : findFoldIdx ctl.items s with
      | some i =>
          rw [hidx] at hacc
          have hacc' : setValue ctl (i : Int) = .written v := hacc
          obtain ⟨hv, h0, hlt⟩ := setValue_written_enum he hacc'
          exact ⟨by rw [hv]; exact h0, by rw [hv]; exact hlt⟩
      | none =>
          rw [hidx] at hacc
          cases hnum : sscanfInt s with
          | none =>
              rw [hnum] at hacc
              have hacc' : SetOutcome.invalidFormat = SetOutcome.written v := hacc
              cases hacc'
          | some idx =>
              rw [hnum] at hacc
              have hacc' : setValue ctl idx = .written v := hacc
              obtain ⟨hv, h0, hlt⟩ := setValue_written_enum he hacc'
              exact ⟨by rw [hv]; exact h0, by rw [hv]; exact hlt⟩
    rw [getValueString_enum_eq he, if_pos hbounds]
    exact reparse_item he hpw v hbounds.1 hbounds.2

/-- Witness for C8 (amended): a boolean control parses "yes" to value 1;
stringifying 1 and re-parsing writes 1 again. -/
theorem parse_stringify_idempotent_witness :
    setValueByString ⟨3, [], .boolean, 1, 0, 0, 0, 0, 1, []⟩
      (getValueString ⟨3, [], .boolean, 1, 0, 0, 0, 0, 1, []⟩ 1) = .written 1 :=
  parse_stringify_idempotent _ "yes".toList 1 (Or.inl rfl) (by decide)

/-- Counterexample for C8: an enumerated control with the case-fold-equal
items ["A", "A"].  Parsing "1" selects index 1 via the numeric path (no item
matches "1"); index 1 stringifies to "A"; but parsing "A" selects index 0 —
the re-parse does not reproduce the parsed value. -/
theorem parse_stringify_duplicate_items :
    setValueByString ⟨4, [], .enumerated, 1, 0, 0, 0, 0, 0, [['A'], ['A']]⟩ ['1'] =
      .written 1 ∧
    getValueString ⟨4, [], .enumerated, 1, 0, 0, 0, 0, 0, [['A'], ['A']]⟩ 1 = ['A'] ∧
    setValueByString ⟨4, [], .enumerated, 1, 0, 0, 0, 0, 0, [['A'], ['A']]⟩ ['A'] =
      .written 0 := by
  decide

/-- GetValueString as PrintPreampState consumes it: the read error is
discarded (`value, _ :=`), so an unreadable control yields the zero-value
empty string and the listing continues. -/
def getValueStringOr (snap : Snapshot) (c : Control) : Str :=
  match getValueOf snap c with
  | Option.none => []
  | some v => getValueString c v

/-- One output line of the preamp state listing: a channel header, the gain
line (with its range), or a plain slot line. -/
inductive PreampLine where
  | chanHeader (n : Nat)
  | gainLine (n : Nat) (text : Str) (lo : Int) (hi : Int)
  | slotLine (n : Nat) (sl : PreampSlot) (text : Str)
deriving DecidableEq, Repr

/-- A line with its value text erased: the structural part of the listing,
which must not depend on which controls are readable. -/
def lineShape : PreampLine → PreampLine
  | .chanHeader n => .chanHeader n
  | .gainLine n _ lo hi => .gainLine n [] lo hi
  | .slotLine n sl _ => .slotLine n sl []

/-- The gain line of a channel, when the gain slot is populated. -/
def gainLines (snap : Snapshot) (n : Nat) : Option Control → List PreampLine
  | Option.none => []
  | some c => [PreampLine.gainLine n (getValueStringOr snap c) c.min c.max]

/-- The line of one non-gain slot, when it is populated. -/
def optSlotLine (snap : Snapshot) (n : Nat) (sl : PreampSlot) :
    Option Control → List PreampLine
  | Option.none => []
  | some c => [PreampLine.slotLine n sl (getValueStringOr snap c)]

/-- The PrintPreampState output for one channel: a header, then one line per
populated slot in the fixed source order (gain, phantom, air, pad,
impedance, level, autogain, safe, link); read errors are discarded per slot
and never stop the loop. -/
def channelLines (snap : Snapshot) (ch : PreampChannel) : List PreampLine :=
  PreampLine.chanHeader ch.channelNum ::
  (gainLines snap ch.channelNum ch.gain ++
   optSlotLine snap ch.channelNum .phantom ch.phantom ++
   optSlotLine snap ch.channelNum .air ch.air ++
   optSlotLine snap ch.channelNum .pad ch.pad ++
   optSlotLine snap ch.channelNum .impedance ch.impedance ++
   optSlotLine snap ch.channelNum .level ch.level ++
   optSlotLine snap ch.channelNum .autogain ch.autogain ++
   optSlotLine snap ch.channelNum .safe ch.safe ++
   optSlotLine snap ch.channelNum .link ch.link)

/-- The listing over a channel list, in order. -/
def preampLinesFor (snap : Snapshot) : List PreampChannel → List PreampLine
  | [] => []
  | ch :: rest => channelLines snap ch ++ preampLinesFor snap rest

/-- PrintPreampState: assemble the channels, then print each one. -/
def printPreampState (snap : Snapshot) (ctls : List Control) : List PreampLine :=
  preampLinesFor snap (getPreampChannels ctls)

/-- The number of populated slots of a channel. -/
def numPopulated (ch : PreampChannel) : Nat :=
  (if ch.gain.isSome then 1 else 0) +
  (if ch.phantom.isSome then 1 else 0) +
  (if ch.air.isSome then 1 else 0) +
  (if ch.pad.isSome then 1 else 0) +
  (if ch.impedance.isSome then 1 else 0) +
  (if ch.level.isSome then 1 else 0) +
  (if ch.autogain.isSome then 1 else 0) +
  (if ch.safe.isSome then 1 else 0) +
  (if ch.link.isSome then 1 else 0)

/-- A populated slot contributes exactly one line, readable or not. -/
theorem optSlotLine_length (snap : Snapshot) (n : Nat) (sl : PreampSlot)
    (o : Option Control) :
    (optSlotLine snap n sl o).length = if o.isSome then 1 else 0 := by
  cases o <;> rfl

/-- A populated gain slot contributes exactly one line, readable or not. -/
theorem gainLines_length (snap : Snapshot) (n : Nat) (o : Option Control) :
    (gainLines snap n o).length = if o.isSome then 1 else 0 := by
  cases o <;> rfl

/-- The shape of a slot line does not depend on the snapshot. -/
theorem optSlotLine_shape (snap snap' : Snapshot) (n : Nat) (sl : PreampSlot)
    (o : Option Control) :
    (optSlotLine snap n sl o).map lineShape = (optSlotLine snap' n sl o).map lineShape := by
  cases o <;> rfl

/-- The shape of the gain line does not depend on the snapshot. -/
theorem gainLines_shape (snap snap' : Snapshot) (n : Nat) (o : Option Control) :
    (gainLines snap n o).map lineShape = (gainLines snap' n o).map lineShape := by
  cases o <;> rfl

/-- The shape of one channel's listing does not depend on the snapshot. -/
theorem channelLines_shape (snap snap' : Snapshot) (ch : PreampChannel) :
    (channelLines snap ch).map lineShape = (channelLines snap' ch).map lineShape := by
  unfold channelLines
  simp only [List.map_cons, List.map_append, gainLines_shape snap snap',
    optSlotLine_shape snap snap']

/-- The shape of the whole preamp listing does not depend on the snapshot. -/
theorem preampLinesFor_shape (snap snap' : Snapshot) :
    ∀ chs : List PreampChannel,
      (preampLinesFor snap chs).map lineShape = (preampLinesFor snap' chs).map lineShape := by
  intro chs
  induction chs with
  | nil => rfl
  | cons ch rest ih =>
      simp only [preampLinesFor, List.map_append, channelLines_shape snap snap', ih]

/-- Claim C4 (amended): the mixer-state listing skips an unreadable control
and continues — it emits exactly one (error or value) line per input, in
order, whatever subset of the inputs is readable; the preamp-state listing
also skips and continues — it discards each slot's read error, emits a
header plus exactly one line per populated slot whether readable or not,
and the set and order of its lines (shapes, with value text erased) are
identical under every snapshot, so no read failure aborts it or drops the
rest of the listing; but the routing-configuration listing (GetRouting)
does NOT skip: it succeeds iff every sink is readable, aborting the whole
listing on the first unreadable sink. -/
theorem bulk_listing_error_behavior (snap : Snapshot) :
    (∀ (sinks : List Control) (acc : List (Str × Int)),
      (∃ r, goRouting snap sinks acc = Except.ok r) ↔
        ∀ s ∈ sinks, (getValueOf snap s).isSome = true) ∧
    (∀ (inputs : List MixerInput) (current : Str),
      (goMixLines snap inputs current).filter (fun l => !isHeaderLine l) =
        inputs.map (fun i =>
          match getValueOf snap i.control with
          | Option.none => MixLine.errLine i.inputNum
          | some v => MixLine.valLine i.inputNum v i.control.min i.control.max)) ∧
    (∀ ch : PreampChannel, (channelLines snap ch).length = 1 + numPopulated ch) ∧
    (∀ (ctls : List Control) (snapB : Snapshot),
      (printPreampState snap ctls).map lineShape =
        (printPreampState snapB ctls).map lineShape) := by
  refine ⟨?_, ?_, ?_, ?_⟩
  on_goal 3 =>
    intro ch
    unfold channelLines numPopulated
    simp only [List.length_cons, List.length_append, optSlotLine_length, gainLines_length]
    omega
  on_goal 3 =>
    intro ctls snapB
    unfold printPreampState
    exact preampLinesFor_shape snap snapB _
  · intro sinks
    induction sinks with
    | nil =>
        intro acc
        constructor
        · intro _ s hs
          cases hs
        · intro _
          exact ⟨acc, rfl⟩
    | cons s rest ih =>
        intro acc
        cases hs : getValueOf snap s with
        | none =>
            simp only [goRouting, hs]
            constructor
            · rintro ⟨r, hr⟩
              cases hr
            · intro h
              have := h s (List.mem_cons_self _ _)
              rw [hs] at this
              cases this
        | some v =>
            simp only [goRouting, hs]
            rw [ih (updateS acc s.name v)]
            constructor
            · intro h t ht
              rcases List.mem_cons.mp ht with rfl | ht'
              · rw [hs]; rfl
              · exact h t ht'
            · intro h t ht
              exact h t (List.mem_cons_of_mem _ ht)
  · intro inputs
    induction inputs with
    | nil => intro current; rfl
    | cons i rest ih =>
        intro current
        cases hv : getValueOf snap i.control with
        | none =>
            simp only [goMixLines, hv, List.map_cons]
            by_cases hm : i.mixName ≠ current
            · rw [if_pos hm]
              simp [List.filter_cons, isHeaderLine_header, isHeaderLine_err, isHeaderLine_val, ih i.mixName]
            · rw [if_neg hm]
              simp [List.filter_cons, isHeaderLine_header, isHeaderLine_err, isHeaderLine_val, ih i.mixName]
        | some v =>
            simp only [goMixLines, hv, List.map_cons]
            by_cases hm : i.mixName ≠ current
            · rw [if_pos hm]
              simp [List.filter_cons, isHeaderLine_header, isHeaderLine_err, isHeaderLine_val, ih i.mixName]
            · rw [if_neg hm]
              simp [List.filter_cons, isHeaderLine_header, isHeaderLine_err, isHeaderLine_val, ih i.mixName]

/-- Counterexample for C4: two routing sinks, the first unreadable and the
second readable with value 7 — GetRouting aborts with a read error instead
of returning the remaining readable entry. -/
theorem getRouting_aborts_on_unreadable :
    getRouting (fun k _ => if k = 2 then some 7 else Option.none)
      [⟨1, "PCM 01 Capture Enum".toList, .enumerated, 1, 0, 0, 0, 0, 0, [['O'], ['A']]⟩,
       ⟨2, "PCM 02 Capture Enum".toList, .enumerated, 1, 0, 0, 0, 0, 0, [['O'], ['A']]⟩] =
      Except.error (ListingErr.readFailed "PCM 01 Capture Enum".toList) ∧
    getValueOf (fun k _ => if k = 2 then some 7 else Option.none)
      ⟨2, "PCM 02 Capture Enum".toList, .enumerated, 1, 0, 0, 0, 0, 0, [['O'], ['A']]⟩ =
      some 7 := by
  constructor
  · rfl
  · rfl


end Scarlettctl